import Mathlib

set_option maxRecDepth 40000

/-!
Verification of the GaussPy+ autonomous Gaussian decomposition core
(`gausspyplus/gausspy_py3/AGD_decomposer.py`, `gausspyplus/gausspy_py3/gp.py`,
`gausspyplus/decomposition/decompose.py`) against its natural-language
specification.

The Python code is shallowly embedded over exact rationals.  External numeric
library primitives (`np.exp`, `np.sqrt`, the `CONVERSION_STD_TO_FWHM`
constant of `gausspyplus.utils.gaussian_functions`, and the dense
least-squares solver `numpy.linalg.lstsq`) are deterministic functions supplied
by the hosting library; they are modelled as fields of an `Oracle` record that
every embedded function takes as an explicit argument, so all definitions stay
computable and theorems quantify over the library primitives.
-/

namespace GaussPyPlus

/-- Python values stored in the string-keyed settings dictionaries
(`GaussianDecomposer.p` in `gp.py` and `improve_fitting_dict` /`dct` in
`AGD_decomposer.AGD`).  `pphase` covers the `'one'`/`'two'` phase strings,
`pobj` covers unstructured objects such as the `SettingsImproveFit` bundle. -/
inductive PVal where
  | pnone : PVal
  | pbool : Bool → PVal
  | pnum : ℚ → PVal
  | pphase : Bool → PVal
  | pobj : PVal
deriving DecidableEq

/-- Keys of the `GaussianDecomposer.p` dictionary (`gp.py`, lines 13-25),
together with the two extra keys that callers mention:
`settings_improve_fit` (used by `decompose.py` line 150, absent from the
default dictionary) and `training_data` (added by `load_training_data`). -/
inductive GKey where
  | alpha1 | alpha2 | training_results | improve_fitting_dict | use_ncpus
  | phase | SNR2_thresh | SNR_thresh | verbose | plot | perform_final_fit
  | settings_improve_fit | training_data
deriving DecidableEq

/-- Keys of the `improve_fitting_dict` settings bundle handled by
`AGD_decomposer.AGD` (lines 189-196): the keys AGD itself reads or writes,
plus a representative sample of the remaining `SettingsImproveFit` fields. -/
inductive IKey where
  | improve_fitting | max_amp_factor | max_amp | max_fwhm | min_fwhm
  | snr | snr_fit | significance
deriving DecidableEq

/-- Lookup in an insertion-ordered Python dictionary (association list). -/
def dictLookup {κ : Type} [DecidableEq κ] : List (κ × PVal) → κ → Option PVal
  | [], _ => none
  | (k', v) :: t, k => if k' = k then some v else dictLookup t k

/-- Python dictionary assignment `d[k] = v`: overwrite the existing entry in
place, or append a new entry at the end (insertion order preserved). -/
def dictSet {κ : Type} [DecidableEq κ] : List (κ × PVal) → κ → PVal → List (κ × PVal)
  | [], k, v => [(k, v)]
  | (k', v') :: t, k, v => if k' = k then (k, v) :: t else (k', v') :: dictSet t k v

/-- Python `k in d`. -/
def dictContains {κ : Type} [DecidableEq κ] (d : List (κ × PVal)) (k : κ) : Bool :=
  (dictLookup d k).isSome

/-- `np.max` of a list of rationals (`np.max(data)` in `AGD`, line 192);
the empty case (where NumPy raises) defaults to `0`. -/
def listMax : List ℚ → ℚ
  | [] => 0
  | h :: t => t.foldl max h

/-- `np.min` of a list of rationals (`np.min(data)` in `initialGuess`,
line 111); the empty case defaults to `0`. -/
def listMin : List ℚ → ℚ
  | [] => 0
  | h :: t => t.foldl min h

/-- Default parameter dictionary of `GaussianDecomposer.__init__`
(`gp.py`, lines 13-25). -/
def default_p : List (GKey × PVal) :=
  [(GKey.alpha1, PVal.pnone), (GKey.alpha2, PVal.pnone),
   (GKey.training_results, PVal.pnone), (GKey.improve_fitting_dict, PVal.pnone),
   (GKey.use_ncpus, PVal.pnone), (GKey.phase, PVal.pphase false),
   (GKey.SNR2_thresh, PVal.pnum 5), (GKey.SNR_thresh, PVal.pnum 5),
   (GKey.verbose, PVal.pbool false), (GKey.plot, PVal.pbool false),
   (GKey.perform_final_fit, PVal.pbool true)]

/-- `GaussianDecomposer.set` (`gp.py`, lines 81-85): update the entry when the
key already exists, otherwise only print `'Given key does not exist.'` and
leave the dictionary unchanged (printing is I/O and has no state effect). -/
def GaussianDecomposer.set (p : List (GKey × PVal)) (key : GKey) (value : PVal) :
    List (GKey × PVal) :=
  if dictContains p key then dictSet p key value else p

/-- Read a numeric entry of the improve-fitting dictionary
(`dct['max_amp_factor']` in `AGD`, line 192; the key holds a float whenever
the dictionary comes from `SettingsImproveFit`).  Non-numeric or missing
entries (where Python would raise) default to `0`. -/
def dictNum (d : List (IKey × PVal)) (k : IKey) : ℚ :=
  match dictLookup d k with
  | some (PVal.pnum q) => q
  | _ => 0

/-- Settings-dictionary initialization of `AGD_decomposer.AGD`
(lines 189-196).  With a non-`None` `improve_fitting_dict` the local name
`dct` aliases the caller's dictionary and the assignment
`dct['max_amp'] = dct['max_amp_factor'] * np.max(data)` writes through the
alias; with `None` a fresh dictionary is populated. -/
def AGD_dct_init (improve_fitting_dict : Option (List (IKey × PVal)))
    (data : List ℚ) : List (IKey × PVal) :=
  match improve_fitting_dict with
  | some dct => dictSet dct IKey.max_amp (PVal.pnum (dictNum dct IKey.max_amp_factor * listMax data))
  | none =>
      dictSet (dictSet (dictSet [] IKey.improve_fitting (PVal.pbool false))
        IKey.max_amp PVal.pnone) IKey.max_fwhm PVal.pnone

/-- Concrete improve-fitting dictionary used to exhibit the mutation performed
by `AGD_dct_init`: it has no `max_amp` entry yet. -/
def d0ex : List (IKey × PVal) :=
  [(IKey.max_amp_factor, PVal.pnum 2), (IKey.improve_fitting, PVal.pbool true),
   (IKey.max_fwhm, PVal.pnone)]

/-- Deterministic numeric primitives supplied by the hosting libraries:
`exp` models `np.exp`, `sqrt` models `np.sqrt`, `conv` models the imported
constant `CONVERSION_STD_TO_FWHM` (2·√(2·ln 2)), and `lstsq` models
`numpy.linalg.lstsq`'s solution vector `lstsq(A, b, rcond=None)[0]`. -/
structure Oracle where
  exp : ℚ → ℚ
  sqrt : ℚ → ℚ
  conv : ℚ
  lstsq : List (List ℚ) → List ℚ → List ℚ

/-- `np.diff`: successive differences `l[i+1] - l[i]`. -/
def diffQ (l : List ℚ) : List ℚ := List.zipWith (fun a b => a - b) (l.drop 1) l

/-- `np.sign` on a rational. -/
def signQ (q : ℚ) : ℤ := if 0 < q then 1 else if q < 0 then -1 else 0

/-- `np.fix`: truncate toward zero. -/
def fixQ (q : ℚ) : ℤ := if 0 ≤ q then ⌊q⌋ else ⌈q⌉

/-- Mean of a list (`np.mean`); empty list defaults to `0`. -/
def meanQ (l : List ℚ) : ℚ := l.sum / l.length

/-- Population variance of a list, as used by `np.std` before the square
root. -/
def varQ (l : List ℚ) : ℚ := (l.map (fun x => (x - meanQ l) ^ 2)).sum / l.length

/-- `np.std`: square root (via the library oracle) of the population
variance. -/
def stdQ (O : Oracle) (l : List ℚ) : ℚ := O.sqrt (varQ l)

/-- `scipy.ndimage.convolve(a, w, mode='wrap')`: the flipped kernel is swept
over the periodically extended input; `c = m / 2` is the centre of the
(odd-length, in all uses below) kernel. -/
def convolveWrap (a w : List ℚ) : List ℚ :=
  let n := a.length
  let m := w.length
  let c := m / 2
  (List.range n).map (fun (i : ℕ) =>
    ((List.range m).map (fun (j : ℕ) =>
      w.getD j 0 * a.getD ((((i : ℤ) + (c : ℤ)) - (j : ℤ)) % (n : ℤ)).toNat 0)).sum)

/-- Normalize a kernel to unit sum (`gauss = gauss / np.sum(gauss)`). -/
def normalizeQ (l : List ℚ) : List ℚ := l.map (fun x => x / l.sum)

/-- Half-width of the smoothing kernels of `_determine_derivatives`
(`AGD_decomposer.py`, lines 48-49): `gauss_dn = np.max([np.fix(alpha), 5]) * 6`. -/
def gauss_dn (alpha : ℚ) : ℤ := max (fixQ alpha) 5 * 6

/-- Modelled from the spec: the spec's formula for the same half-width,
`max(round(alpha), 5) * 6`, with `round` the usual nearest-integer rounding.
Kept separate from `gauss_dn` so the two can be compared. -/
def halfwidth_spec (alpha : ℚ) : ℤ := max (round alpha) 5 * 6

/-- Unnormalized smoothing kernel on the half-channel-offset grid
`xx = arange(2*gauss_dn + 2) - gauss_dn - 0.5`
(`_determine_derivatives`, lines 51-52). -/
def gaussRawA (O : Oracle) (alpha : ℚ) : List ℚ :=
  (List.range (2 * (gauss_dn alpha).toNat + 2)).map
    (fun (k : ℕ) => O.exp (-((k : ℚ) - ((gauss_dn alpha).toNat : ℚ) - 1/2) ^ 2 / 2 / alpha ^ 2))

/-- Normalized smoothing kernel for the 1st/3rd-derivative pair
(`_determine_derivatives`, lines 52-53). -/
def gaussA (O : Oracle) (alpha : ℚ) : List ℚ := normalizeQ (gaussRawA O alpha)

/-- First-derivative kernel `gauss1 = np.diff(gauss) / dv` (line 54). -/
def gauss1K (O : Oracle) (alpha dv : ℚ) : List ℚ :=
  (diffQ (gaussA O alpha)).map (fun x => x / dv)

/-- Third-derivative kernel `gauss3 = np.diff(np.diff(gauss1)) / dv**2`
(line 55). -/
def gauss3K (O : Oracle) (alpha dv : ℚ) : List ℚ :=
  (diffQ (diffQ (gauss1K O alpha dv))).map (fun x => x / dv ^ 2)

/-- Unnormalized smoothing kernel on the integer grid
`xx2 = arange(2*gauss_dn + 1) - gauss_dn` (lines 57-58). -/
def gaussRawB (O : Oracle) (alpha : ℚ) : List ℚ :=
  (List.range (2 * (gauss_dn alpha).toNat + 1)).map
    (fun (k : ℕ) => O.exp (-((k : ℚ) - ((gauss_dn alpha).toNat : ℚ)) ^ 2 / 2 / alpha ^ 2))

/-- Normalized smoothing kernel for the 2nd/4th-derivative pair (line 59). -/
def gaussB (O : Oracle) (alpha : ℚ) : List ℚ := normalizeQ (gaussRawB O alpha)

/-- Second-derivative kernel: `gauss2 = diff(gauss2)/dv` applied twice
(lines 60-61). -/
def gauss2K (O : Oracle) (alpha dv : ℚ) : List ℚ :=
  (diffQ ((diffQ (gaussB O alpha)).map (fun x => x / dv))).map (fun x => x / dv)

/-- Fourth-derivative kernel `gauss4 = np.diff(np.diff(gauss2)) / dv**2`
(line 62). -/
def gauss4K (O : Oracle) (alpha dv : ℚ) : List ℚ :=
  (diffQ (diffQ (gauss2K O alpha dv))).map (fun x => x / dv ^ 2)

/-- `_determine_derivatives(data, dv, alpha)` (`AGD_decomposer.py`,
lines 44-68): regularized derivatives `u, u2, u3, u4` obtained by wrap-mode
convolution of the data with the four derivative kernels. -/
def determine_derivatives (O : Oracle) (data : List ℚ) (dv alpha : ℚ) :
    List ℚ × List ℚ × List ℚ × List ℚ :=
  (convolveWrap data (gauss1K O alpha dv), convolveWrap data (gauss2K O alpha dv),
   convolveWrap data (gauss3K O alpha dv), convolveWrap data (gauss4K O alpha dv))

/-- Python truthiness test `not errors` used by `initialGuess` (line 110):
true for `None` and for `0.0`. -/
def pyFalsy : Option ℚ → Bool
  | none => true
  | some q => decide (q = 0)

/-- Default noise estimate `np.std(data[data < abs(np.min(data))])`
(`initialGuess`, line 111). -/
def noise_estimate (O : Oracle) (data : List ℚ) : ℚ :=
  stdQ O (data.filter (fun x => decide (x < |listMin data|)))

/-- `np.argsort` (ascending indices), modelled as a stable insertion sort on
the index list; NumPy's introsort falls back to a stable insertion sort on the
small candidate arrays this code deals with. -/
def argsort (xs : List ℚ) : List ℕ :=
  List.insertionSort (fun i j => xs.getD i 0 ≤ xs.getD j 0) (List.range xs.length)

/-- Second-derivative threshold of `initialGuess` (lines 117-124): for
`SNR2_thresh > 0` it is `-RMSD2 * SNR2_thresh` with `RMSD2` the standard
deviation of the half of `u2` that is smallest in absolute value, divided by
`0.377`; otherwise it is `0`. -/
def thresh2_of (O : Oracle) (u2 : List ℚ) (SNR2_thresh : ℚ) : ℚ :=
  if 0 < SNR2_thresh then
    -(stdQ O (((argsort (u2.map (fun x => |x|))).take (u2.length / 2)).map
      (fun i => u2.getD i 0)) / (377/1000)) * SNR2_thresh
  else 0

/-- Intensity mask `mask1 = (data > thresh)[1:]` (`initialGuess`, line 114). -/
def mask1_of (data : List ℚ) (thresh : ℚ) : List Bool :=
  (data.drop 1).map (fun x => decide (thresh < x))

/-- Positive-4th-derivative mask `mask3 = (u4 > 0)[1:]` (line 115). -/
def mask3_of (u4 : List ℚ) : List Bool :=
  (u4.drop 1).map (fun x => decide (0 < x))

/-- Negative-2nd-derivative mask `mask4 = (u2 < thresh2)[1:]` (line 125). -/
def mask4_of (u2 : List ℚ) (thresh2 : ℚ) : List Bool :=
  (u2.drop 1).map (fun x => decide (x < thresh2))

/-- Gaussian-overlap matrix `FF_matrix` of the deblending step
(`initialGuess`, lines 151-154):
`FF[i,j] = exp(-(offsets[i]-offsets[j])^2 / 2 / (FWHMs[j]/CONV)^2)`. -/
def FF_matrix (O : Oracle) (n : ℕ) (offsets FWHMs : List ℚ) : List (List ℚ) :=
  (List.range n).map (fun i => (List.range n).map (fun j =>
    O.exp (-(offsets.getD i 0 - offsets.getD j 0) ^ 2 / 2 /
      (FWHMs.getD j 0 / O.conv) ^ 2)))

/-- Dense matrix-vector product, used to state that a solver output solves the
deblending system exactly. -/
def matVec (M : List (List ℚ)) (v : List ℚ) : List ℚ :=
  M.map (fun row => (List.zipWith (fun a b => a * b) row v).sum)

/-- Deblending step of `initialGuess` (lines 150-157): solve
`FF_matrix · amps_new = amps` by least squares and keep the corrected
amplitudes only when `np.all(amps_new > 0)`. -/
def deblend (O : Oracle) (offsets FWHMs amps : List ℚ) : List ℚ :=
  let amps_new := O.lstsq (FF_matrix O amps.length offsets FWHMs) amps
  if amps_new.all (fun a => decide (0 < a)) then amps_new else amps

/-- Modelled from the spec: the spec's acceptance rule for the deblending
correction, which adopts the corrected amplitudes whenever all of them are
non-negative (`>= 0`).  Kept separate from `deblend` so the two can be
compared. -/
def deblend_spec (O : Oracle) (offsets FWHMs amps : List ℚ) : List ℚ :=
  let amps_new := O.lstsq (FF_matrix O amps.length offsets FWHMs) amps
  if amps_new.all (fun a => decide (0 ≤ a)) then amps_new else amps

/-- Result dictionary of `initialGuess` (`odict`, lines 139-141 and
159-168). -/
structure IGResult where
  means : List ℚ
  FWHMs : List ℚ
  amps : List ℚ
  u2 : List ℚ
  errors : ℚ
  thresh2 : ℚ
  thresh : ℚ
  N_components : ℕ
deriving DecidableEq

/-- `AGD_decomposer.initialGuess` (lines 71-170).  Channels are `Option ℚ`
with `none` playing NaN, so the guard `np.any(np.isnan(data))` (lines 92-94)
is `data.any isNone`; on NaN the function returns Python `None`, embedded as
`none`.  Velocity offsets come from `interp1d` on the index grid evaluated at
`index + 0.5`, i.e. the midpoint of two neighbouring velocities (line 132).
The candidate filter embeds `zeros * mask1 * mask3 * mask4 != 0` (an integer
product of the sign-change indicator and three 0/1 masks is nonzero exactly
when every factor is) followed by `np.where` (lines 129-131). -/
def initialGuess (O : Oracle) (vel : List ℚ) (data : List (Option ℚ))
    (errors : Option ℚ) (alpha SNR_thresh SNR2_thresh : ℚ) : Option IGResult :=
  if data.any (fun x => x.isNone) then none
  else
    let d := data.map (fun x => x.getD 0)
    let dv := |vel.getD 1 0 - vel.getD 0 0|
    let der := determine_derivatives O d dv alpha
    let u2 := der.2.1
    let u3 := der.2.2.1
    let u4 := der.2.2.2
    let errs := if pyFalsy errors then noise_estimate O d else errors.getD 0
    let thresh := SNR_thresh * errs
    let thresh2 := thresh2_of O u2 SNR2_thresh
    let signs := u3.map signQ
    let zeros := List.zipWith (fun a b => (a - b).natAbs) (signs.drop 1) signs
    let m1 := mask1_of d thresh
    let m3 := mask3_of u4
    let m4 := mask4_of u2 thresh2
    let cand := (List.range zeros.length).filter
      (fun i => decide (zeros.getD i 0 ≠ 0) && m1.getD i false &&
        m3.getD i false && m4.getD i false)
    let offsets := cand.map (fun i => (vel.getD i 0 + vel.getD (i + 1) 0) / 2)
    if offsets.length = 0 then
      some ⟨[], [], [], u2, errs, thresh2, thresh, 0⟩
    else
      let FWHMs := cand.map (fun i => O.sqrt |d.getD i 0 / u2.getD i 0| * O.conv)
      let amps := cand.map (fun i => d.getD i 0)
      some ⟨offsets, FWHMs, deblend O offsets FWHMs amps, u2, errs, thresh2,
        thresh, offsets.length⟩

/-- Python slice `l[a:b]`. -/
def sliceP (l : List ℚ) (a b : ℕ) : List ℚ := (l.drop a).take (b - a)

/-- Apply an index permutation to a parameter sub-vector (NumPy fancy
indexing `xs[w]`). -/
def permuteIdx (w : List ℕ) (xs : List ℚ) : List ℚ := w.map (fun i => xs.getD i 0)

/-- Amplitude sort of the final guess list in `AGD_decomposer.AGD`
(lines 305-312): split the parameter vector into its three sub-vectors,
compute `w_sort_amp = np.argsort(amps_temp)[::-1]` and apply it to each
sub-vector before re-concatenating. -/
def AGD_sort_guesses (params : List ℚ) : List ℚ :=
  let n := params.length / 3
  let amps := params.take n
  let widths := sliceP params n (2 * n)
  let offsets := sliceP params (2 * n) (3 * n)
  let w := (argsort amps).reverse
  permuteIdx w amps ++ permuteIdx w widths ++ permuteIdx w offsets

/-- Modelled from the spec: sorting the final guess list by descending
amplitude with a stable tie-break (candidates of equal amplitude keep their
relative input order).  The index comparison `amps[j] < amps[i] ∨
(amps[i] = amps[j] ∧ i ≤ j)` is a total order on positions realizing exactly
that ordering.  Kept separate from `AGD_sort_guesses` so the two can be
compared. -/
def AGD_sort_guesses_spec (params : List ℚ) : List ℚ :=
  let n := params.length / 3
  let amps := params.take n
  let widths := sliceP params n (2 * n)
  let offsets := sliceP params (2 * n) (3 * n)
  let w := List.insertionSort
    (fun i j => amps.getD j 0 < amps.getD i 0 ∨ (amps.getD i 0 = amps.getD j 0 ∧ i ≤ j))
    (List.range n)
  permuteIdx w amps ++ permuteIdx w widths ++ permuteIdx w offsets

/-- Library oracle with a simple strictly-increasing, positive stand-in for
`np.exp` on the non-positive arguments the kernels use (`1/(1-x)` agrees with
`exp` at `0` and is positive and increasing on `x ≤ 0`); `conv = 2` and a
trivial solver, neither of which the tests that use this oracle touch. -/
def Otest : Oracle :=
  ⟨fun x => 1 / (1 - x), fun _ => 0, 2, fun _ a => a⟩

/-- Oracle with everywhere-positive `exp`, used to discharge positivity
hypotheses at concrete inputs. -/
def Opos : Oracle :=
  ⟨fun _ => 1, fun _ => 0, 2, fun _ a => a⟩

/-- Oracle for the deblending counterexample: same `exp` stand-in as `Otest`
and a solver returning `[0, 1]`, which is the exact solution of the concrete
2×2 deblending system it is applied to below. -/
def O4 : Oracle :=
  ⟨fun x => 1 / (1 - x), fun _ => 0, 2, fun _ _ => [0, 1]⟩

/-- Oracle for the deblending adoption-branch witness: same `exp` stand-in as
`Otest` and a solver returning `[1/2, 1]`, which is the exact, entrywise
strictly positive solution of the concrete 2×2 deblending system it is
applied to below. -/
def O5 : Oracle :=
  ⟨fun x => 1 / (1 - x), fun _ => 0, 2, fun _ _ => [1/2, 1]⟩

/-- The second derivative computed by `initialGuess` on a constant spectrum of
value `-1` over 4 channels with `dv = 1`, `alpha = 1`. -/
def u2ex : List ℚ := (determine_derivatives Otest (List.replicate 4 (-1)) 1 1).2.1

/-- Python exceptions relevant to `batch_decomposition`'s aggregation loop
(`gp.py`, lines 128-176): `typeError` is raised by subscripting a `None`
worker result and is the only exception the loop catches; `keyError` is raised
by accessing a missing dictionary key and propagates out of the function. -/
inductive PyErr where
  | typeError : PyErr
  | keyError : PyErr
deriving DecidableEq

/-- Per-spectrum result dictionary produced by `AGD_decomposer.AGD`
(lines 450-464): `index`, `N_components` and `initial_parameters` are always
present; the best-fit and improve-fitting entries are optional (`none` models
an absent key). -/
structure AGDResult where
  index : Option ℤ
  N_components : ℕ
  initial_parameters : List ℚ
  best_fit_parameters : Option (List ℚ)
  best_fit_errors : Option (List ℚ)
  best_fit_rchi2 : Option ℚ
  best_fit_aicc : Option ℚ
  pvalue : Option ℚ
  N_neg_res_peak : Option ℤ
  N_blended : Option ℤ
  log_gplus : Option (List ℚ)
  quality_control : Option (List ℕ)
deriving DecidableEq

/-- The values appended to the 19 output lists for one spectrum during one
iteration of `batch_decomposition`'s aggregation loop. -/
structure Row where
  index_fit : Option ℤ
  amplitudes_fit : Option (List ℚ)
  fwhms_fit : Option (List ℚ)
  means_fit : Option (List ℚ)
  N_components_initial : Option ℕ
  amplitudes_initial : Option (List ℚ)
  fwhms_initial : Option (List ℚ)
  means_initial : Option (List ℚ)
  amplitudes_fit_err : Option (List ℚ)
  fwhms_fit_err : Option (List ℚ)
  means_fit_err : Option (List ℚ)
  best_fit_rchi2 : Option ℚ
  best_fit_aicc : Option ℚ
  N_components : Option ℕ
  N_neg_res_peak : Option ℤ
  N_blended : Option ℤ
  log_gplus : Option (List ℚ)
  pvalue : Option ℚ
  quality_control : Option (List ℕ)
deriving DecidableEq

/-- The `output_data` dictionary of `batch_decomposition` (`gp.py`,
lines 102-124): the fixed key set `new_keys` of 19 per-spectrum output lists. -/
structure BatchOutput where
  index_fit : List (Option ℤ)
  amplitudes_fit : List (Option (List ℚ))
  fwhms_fit : List (Option (List ℚ))
  means_fit : List (Option (List ℚ))
  N_components_initial : List (Option ℕ)
  amplitudes_initial : List (Option (List ℚ))
  fwhms_initial : List (Option (List ℚ))
  means_initial : List (Option (List ℚ))
  amplitudes_fit_err : List (Option (List ℚ))
  fwhms_fit_err : List (Option (List ℚ))
  means_fit_err : List (Option (List ℚ))
  best_fit_rchi2 : List (Option ℚ)
  best_fit_aicc : List (Option ℚ)
  N_components : List (Option ℕ)
  N_neg_res_peak : List (Option ℤ)
  N_blended : List (Option ℤ)
  log_gplus : List (Option (List ℚ))
  pvalue : List (Option ℚ)
  quality_control : List (Option (List ℕ))
deriving DecidableEq

/-- `output_data = {key: [] for key in new_keys}` (line 124). -/
def emptyOutput : BatchOutput :=
  ⟨[], [], [], [], [], [], [], [], [], [], [], [], [], [], [], [], [], [], []⟩

/-- Append one spectrum's entry to every output list. -/
def pushRow (o : BatchOutput) (r : Row) : BatchOutput where
  index_fit := o.index_fit ++ [r.index_fit]
  amplitudes_fit := o.amplitudes_fit ++ [r.amplitudes_fit]
  fwhms_fit := o.fwhms_fit ++ [r.fwhms_fit]
  means_fit := o.means_fit ++ [r.means_fit]
  N_components_initial := o.N_components_initial ++ [r.N_components_initial]
  amplitudes_initial := o.amplitudes_initial ++ [r.amplitudes_initial]
  fwhms_initial := o.fwhms_initial ++ [r.fwhms_initial]
  means_initial := o.means_initial ++ [r.means_initial]
  amplitudes_fit_err := o.amplitudes_fit_err ++ [r.amplitudes_fit_err]
  fwhms_fit_err := o.fwhms_fit_err ++ [r.fwhms_fit_err]
  means_fit_err := o.means_fit_err ++ [r.means_fit_err]
  best_fit_rchi2 := o.best_fit_rchi2 ++ [r.best_fit_rchi2]
  best_fit_aicc := o.best_fit_aicc ++ [r.best_fit_aicc]
  N_components := o.N_components ++ [r.N_components]
  N_neg_res_peak := o.N_neg_res_peak ++ [r.N_neg_res_peak]
  N_blended := o.N_blended ++ [r.N_blended]
  log_gplus := o.log_gplus ++ [r.log_gplus]
  pvalue := o.pvalue ++ [r.pvalue]
  quality_control := o.quality_control ++ [r.quality_control]

/-- The entry recorded for spectrum `i` by the `except TypeError` handler
(lines 169-176): `None` is appended under every key, after which
`output_data['index_fit'][i] = i` overwrites the `index_fit` entry with the
loop position `i`. -/
def failRow (i : ℕ) : Row :=
  ⟨some (i : ℤ), none, none, none, none, none, none, none, none, none, none,
   none, none, none, none, none, none, none, none⟩

/-- Body of one iteration of the aggregation loop (lines 129-168) on a worker
result.  A `None` result raises `TypeError` at `result['index']` before
anything is appended; a dictionary result with `N_components > 0` but a
missing best-fit key raises `KeyError` (which the loop does not catch).
Otherwise every key receives exactly one value: slices of
`best_fit_parameters` / `best_fit_errors` (empty lists when
`N_components == 0`), slices of `initial_parameters`, and
`result[key] if key in result else None` for the seven optional keys. -/
def processOne (r : Option AGDResult) : Except PyErr Row :=
  match r with
  | none => Except.error PyErr.typeError
  | some x =>
    let ncomps := x.N_components
    let nci := x.initial_parameters.length / 3
    let ai := if 0 < nci then sliceP x.initial_parameters 0 nci else []
    let fi := if 0 < nci then sliceP x.initial_parameters nci (2 * nci) else []
    let mi := if 0 < nci then sliceP x.initial_parameters (2 * nci) (3 * nci) else []
    if 0 < ncomps then
      match x.best_fit_parameters, x.best_fit_errors with
      | some bfp, some bfe =>
        Except.ok
          ⟨x.index, some (sliceP bfp 0 ncomps), some (sliceP bfp ncomps (2 * ncomps)),
           some (sliceP bfp (2 * ncomps) (3 * ncomps)), some nci, some ai, some fi,
           some mi, some (sliceP bfe 0 ncomps), some (sliceP bfe ncomps (2 * ncomps)),
           some (sliceP bfe (2 * ncomps) (3 * ncomps)), x.best_fit_rchi2,
           x.best_fit_aicc, some ncomps, x.N_neg_res_peak, x.N_blended, x.log_gplus,
           x.pvalue, x.quality_control⟩
      | _, _ => Except.error PyErr.keyError
    else
      Except.ok
        ⟨x.index, some [], some [], some [], some nci, some ai, some fi, some mi,
         some [], some [], some [], x.best_fit_rchi2, x.best_fit_aicc, some ncomps,
         x.N_neg_res_peak, x.N_blended, x.log_gplus, x.pvalue, x.quality_control⟩

/-- The entry set recorded for result `r` at loop position `i`: the success
row, the all-`None`-plus-index row on a caught `TypeError`, or `none` when the
uncaught `KeyError` aborts the whole batch. -/
def rowOfResult (i : ℕ) (r : Option AGDResult) : Option Row :=
  match processOne r with
  | Except.ok row => some row
  | Except.error PyErr.typeError => some (failRow i)
  | Except.error PyErr.keyError => none

/-- Collect the rows of all results starting at loop position `i`; `none`
when some result raises the uncaught `KeyError`. -/
def collectRows : ℕ → List (Option AGDResult) → Option (List Row)
  | _, [] => some []
  | i, r :: rest =>
    match rowOfResult i r with
    | none => none
    | some row => (collectRows (i + 1) rest).map (fun rows => row :: rows)

/-- The aggregation loop `for i, result in enumerate(result_list)`
(lines 128-176), threading the loop position and the accumulated
`output_data`. -/
def batchGo : ℕ → List (Option AGDResult) → BatchOutput → Except PyErr BatchOutput
  | _, [], acc => Except.ok acc
  | i, r :: rest, acc =>
    match processOne r with
    | Except.ok row => batchGo (i + 1) rest (pushRow acc row)
    | Except.error PyErr.typeError => batchGo (i + 1) rest (pushRow acc (failRow i))
    | Except.error PyErr.keyError => Except.error PyErr.keyError

/-- `GaussianDecomposer.batch_decomposition` (`gp.py`, lines 87-183),
restricted to its aggregation phase: the worker results (one per spectrum,
`none` for a worker whose exception was downgraded to `None`) are folded into
the fixed-key `output_data` dictionary. -/
def batch_decomposition (results : List (Option AGDResult)) : Except PyErr BatchOutput :=
  batchGo 0 results emptyOutput

/-- The 19 entries stored at position `j` of the output lists. -/
def rowAt (o : BatchOutput) (j : ℕ) : Row :=
  ⟨o.index_fit.getD j none, o.amplitudes_fit.getD j none, o.fwhms_fit.getD j none,
   o.means_fit.getD j none, o.N_components_initial.getD j none,
   o.amplitudes_initial.getD j none, o.fwhms_initial.getD j none,
   o.means_initial.getD j none, o.amplitudes_fit_err.getD j none,
   o.fwhms_fit_err.getD j none, o.means_fit_err.getD j none,
   o.best_fit_rchi2.getD j none, o.best_fit_aicc.getD j none,
   o.N_components.getD j none, o.N_neg_res_peak.getD j none,
   o.N_blended.getD j none, o.log_gplus.getD j none, o.pvalue.getD j none,
   o.quality_control.getD j none⟩

/-- A worker result is benign when it is `None` (caught failure) or processes
without the uncaught `KeyError`. -/
def benign (r : Option AGDResult) : Bool :=
  match r with
  | none => true
  | some x => (processOne (some x)).toBool

/-- A minimal well-formed worker result (zero components). -/
def r0ex : AGDResult :=
  ⟨some 7, 0, [], none, none, none, none, none, none, none, none, none⟩

/-- Output of `batch_decomposition` on the single-`None` result list. -/
def outN : BatchOutput := pushRow emptyOutput (failRow 0)

/-- Lookup after a Python dictionary assignment: the assigned key reads the
new value, every other key is untouched. -/
theorem dictLookup_dictSet {κ : Type} [DecidableEq κ]
    (d : List (κ × PVal)) (k k' : κ) (v : PVal) :
    dictLookup (dictSet d k v) k' = if k = k' then some v else dictLookup d k' := by
  induction d with
  | nil => by_cases h : k = k' <;> simp [dictSet, dictLookup, h]
  | cons hd t ih =>
    obtain ⟨k0, v0⟩ := hd
    by_cases h0 : k0 = k
    · subst h0
      by_cases h1 : k0 = k' <;> simp [dictSet, dictLookup, h1]
    · have h2 : ¬ k = k0 := fun h => h0 h.symm
      by_cases h1 : k0 = k' <;> simp [dictSet, dictLookup, h0, h1, h2, ih]
      subst h1
      rw [if_neg h0, if_neg h2]
      simp [dictLookup]

/-- C10: `GaussianDecomposer.set` with a key absent from the parameter
dictionary is a silent no-op (only a message is printed, no state changes);
in particular the `decompose.py` orchestration call
`decomposer.set('settings_improve_fit', self.fitting)` leaves the default
decomposer state unchanged, because that key is not among the default
parameters. -/
theorem set_unknown_key_noop (p : List (GKey × PVal)) (key : GKey) (value : PVal)
    (h : dictContains p key = false) :
    GaussianDecomposer.set p key value = p ∧
    GaussianDecomposer.set default_p GKey.settings_improve_fit value = default_p := by
  constructor
  · simp [GaussianDecomposer.set, h]
  · rfl

/-- Witness for `set_unknown_key_noop` at the concrete key `training_data`
(also absent from the default dictionary) and value `None`. -/
theorem set_unknown_key_noop_witness :
    GaussianDecomposer.set default_p GKey.training_data PVal.pnone = default_p ∧
    GaussianDecomposer.set default_p GKey.settings_improve_fit PVal.pnone = default_p :=
  set_unknown_key_noop default_p GKey.training_data PVal.pnone (by decide)

/-- C2 (counterexample): `AGD` with a non-`None` `improve_fitting_dict` does
mutate the caller's settings dictionary — running the settings-initialization
step on a dictionary without a `max_amp` entry adds that key, so the
dictionary does not hold the same key-value pairs afterwards. -/
theorem AGD_mutates_caller_dict :
    AGD_dct_init (some d0ex) [1] ≠ d0ex ∧
    dictLookup d0ex IKey.max_amp = none ∧
    dictLookup (AGD_dct_init (some d0ex) [1]) IKey.max_amp = some (PVal.pnum 2) := by
  refine ⟨by with_unfolding_all decide, by with_unfolding_all decide, by with_unfolding_all decide⟩

/-- C2 (amended): the settings-initialization step of `AGD` mutates the
caller's `improve_fitting_dict` at exactly the key `max_amp`, which it sets to
`max_amp_factor * np.max(data)`; every other key keeps its previous value. -/
theorem AGD_dct_init_mutates_only_max_amp (d : List (IKey × PVal)) (data : List ℚ)
    (k : IKey) (hk : k ≠ IKey.max_amp) :
    dictLookup (AGD_dct_init (some d) data) k = dictLookup d k ∧
    dictLookup (AGD_dct_init (some d) data) IKey.max_amp =
      some (PVal.pnum (dictNum d IKey.max_amp_factor * listMax data)) := by
  unfold AGD_dct_init
  constructor
  · rw [dictLookup_dictSet, if_neg (fun h => hk h.symm)]
  · rw [dictLookup_dictSet, if_pos rfl]

/-- Witness for `AGD_dct_init_mutates_only_max_amp` at the concrete dictionary
`d0ex`, data `[1]` and key `snr`. -/
theorem AGD_dct_init_mutates_only_max_amp_witness :
    dictLookup (AGD_dct_init (some d0ex) [1]) IKey.snr = dictLookup d0ex IKey.snr ∧
    dictLookup (AGD_dct_init (some d0ex) [1]) IKey.max_amp =
      some (PVal.pnum (dictNum d0ex IKey.max_amp_factor * listMax [1])) :=
  AGD_dct_init_mutates_only_max_amp d0ex [1] IKey.snr (by decide)

/-- C7: `initialGuess` on a spectrum containing a NaN channel returns the
null result marker (`None`) instead of raising; the guard fires before any
processing, so nothing outside this call is affected. -/
theorem initialGuess_nan_none (O : Oracle) (vel : List ℚ) (data : List (Option ℚ))
    (errors : Option ℚ) (alpha SNR_thresh SNR2_thresh : ℚ)
    (h : data.any (fun x => x.isNone) = true) :
    initialGuess O vel data errors alpha SNR_thresh SNR2_thresh = none := by
  unfold initialGuess
  rw [h]
  rfl

/-- Witness for `initialGuess_nan_none` at a concrete two-channel spectrum
whose second channel is NaN. -/
theorem initialGuess_nan_none_witness :
    initialGuess Opos [0, 1] [some 1, none] none 1 5 5 = none :=
  initialGuess_nan_none Opos [0, 1] [some 1, none] none 1 5 5 (by decide)

/-- C8: `initialGuess` is deterministic — two runs on equal inputs (with the
same deterministic library primitives) produce equal result dictionaries,
hence the same component count, amplitudes, FWHMs, means, noise estimate and
thresholds. -/
theorem initialGuess_deterministic (O : Oracle) (vel vela : List ℚ)
    (data dataa : List (Option ℚ)) (errors errorsa : Option ℚ)
    (alpha alphaa SNR_thresh SNR_thresha SNR2_thresh SNR2_thresha : ℚ)
    (h1 : vel = vela) (h2 : data = dataa) (h3 : errors = errorsa)
    (h4 : alpha = alphaa) (h5 : SNR_thresh = SNR_thresha)
    (h6 : SNR2_thresh = SNR2_thresha) :
    initialGuess O vel data errors alpha SNR_thresh SNR2_thresh =
      initialGuess O vela dataa errorsa alphaa SNR_thresha SNR2_thresha := by
  subst h1; subst h2; subst h3; subst h4; subst h5; subst h6; rfl

/-- Witness for `initialGuess_deterministic` at a concrete spectrum. -/
theorem initialGuess_deterministic_witness :
    initialGuess Opos [0, 1, 2] [some 1, some 0, some 1] (some 1) 1 5 5 =
      initialGuess Opos [0, 1, 2] [some 1, some 0, some 1] (some 1) 1 5 5 :=
  initialGuess_deterministic Opos [0, 1, 2] [0, 1, 2]
    [some 1, some 0, some 1] [some 1, some 0, some 1] (some 1) (some 1)
    1 1 5 5 5 5 rfl rfl rfl rfl rfl rfl

/-- C4 (counterexample): on a two-candidate set whose exact least-squares
deblending solution is `[0, 1]` (the solver output of `O4` solves the
concrete overlap system exactly, as the first conjunct checks), the code
keeps the raw amplitudes `[2/3, 1]` because `np.all(amps_new > 0)` is false
at the zero entry, while the spec's non-negativity rule (`>= 0`) adopts the
corrected amplitudes — so "adopted iff all non-negative" is false on the
code. -/
theorem deblend_zero_amp_keeps_raw :
    matVec (FF_matrix O4 2 [0, 1] [2, 2]) [0, 1] = [2/3, 1] ∧
    deblend O4 [0, 1] [2, 2] [2/3, 1] = [2/3, 1] ∧
    deblend_spec O4 [0, 1] [2, 2] [2/3, 1] = [0, 1] ∧
    deblend O4 [0, 1] [2, 2] [2/3, 1] ≠ deblend_spec O4 [0, 1] [2, 2] [2/3, 1] := by
  refine ⟨?_, ?_, ?_, ?_⟩ <;> with_unfolding_all decide

/-- C4 (amended): the least-squares-corrected amplitudes are adopted if and
only if all of them are strictly positive (`np.all(amps_new > 0)`): when
every corrected amplitude is `> 0` the correction is adopted, when some
corrected amplitude fails `> 0` (for instance equals zero) the raw
amplitudes are kept, and for raw amplitudes that are non-negative the
returned amplitude sequence never contains a negative value. -/
theorem deblend_accepts_iff_all_positive (O : Oracle) (offsets FWHMs amps : List ℚ)
    (hnn : ∀ a ∈ amps, 0 ≤ a) :
    ((∀ a ∈ O.lstsq (FF_matrix O amps.length offsets FWHMs) amps, 0 < a) →
      deblend O offsets FWHMs amps =
        O.lstsq (FF_matrix O amps.length offsets FWHMs) amps) ∧
    ((∃ a ∈ O.lstsq (FF_matrix O amps.length offsets FWHMs) amps, ¬ 0 < a) →
      deblend O offsets FWHMs amps = amps) ∧
    (∀ a ∈ deblend O offsets FWHMs amps, 0 ≤ a) := by
  by_cases h : (O.lstsq (FF_matrix O amps.length offsets FWHMs) amps).all
      (fun a => decide (0 < a)) = true
  · have hall : ∀ a ∈ O.lstsq (FF_matrix O amps.length offsets FWHMs) amps, 0 < a := by
      intro a ha
      have := List.all_eq_true.mp h a ha
      simpa using this
    have hd : deblend O offsets FWHMs amps =
        O.lstsq (FF_matrix O amps.length offsets FWHMs) amps := by
      unfold deblend
      rw [if_pos h]
    refine ⟨fun _ => hd, fun hex => ?_, fun a ha => le_of_lt (hall a (hd ▸ ha))⟩
    obtain ⟨a, ha, hna⟩ := hex
    exact absurd (hall a ha) hna
  · have hd : deblend O offsets FWHMs amps = amps := by
      unfold deblend
      rw [if_neg h]
    have hnotall : ¬ ∀ a ∈ O.lstsq (FF_matrix O amps.length offsets FWHMs) amps, 0 < a := by
      intro hall
      exact h (List.all_eq_true.mpr (fun a ha => by simpa using hall a ha))
    exact ⟨fun hall => absurd hall hnotall, fun _ => hd, fun a ha => hnn a (hd ▸ ha)⟩

/-- Witness for `deblend_accepts_iff_all_positive` exercising the adoption
branch of `deblend`: the solver output `[1/2, 1]` is the exact solution of
the concrete overlap system (first conjunct), all its entries are strictly
positive, and `deblend` adopts it — the returned amplitudes are the corrected
ones, not the raw `[7/6, 4/3]`. -/
theorem deblend_accepts_iff_all_positive_witness :
    matVec (FF_matrix O5 2 [0, 1] [2, 2]) [1/2, 1] = [7/6, 4/3] ∧
    deblend O5 [0, 1] [2, 2] [7/6, 4/3] =
      O5.lstsq (FF_matrix O5 ([(7:ℚ)/6, 4/3]).length [0, 1] [2, 2]) [7/6, 4/3] ∧
    O5.lstsq (FF_matrix O5 ([(7:ℚ)/6, 4/3]).length [0, 1] [2, 2]) [7/6, 4/3] = [1/2, 1] ∧
    deblend O5 [0, 1] [2, 2] [7/6, 4/3] ≠ [7/6, 4/3] ∧
    (∀ a ∈ deblend O5 [0, 1] [2, 2] [7/6, 4/3], 0 ≤ a) :=
  ⟨by with_unfolding_all decide,
   (deblend_accepts_iff_all_positive O5 [0, 1] [2, 2] [7/6, 4/3]
      (by with_unfolding_all decide)).1 (by with_unfolding_all decide),
   by with_unfolding_all decide,
   by with_unfolding_all decide,
   (deblend_accepts_iff_all_positive O5 [0, 1] [2, 2] [7/6, 4/3]
      (by with_unfolding_all decide)).2.2⟩

/-- C5 (counterexample): at `alpha = 5.7` the code's kernel half-width
`max(np.fix(alpha), 5) * 6` is `30`, while the spec's formula
`max(round(alpha), 5) * 6` gives `36` — `np.fix` truncates toward zero, it
does not round. -/
theorem smoothing_halfwidth_fix_not_round :
    gauss_dn (57/10) = 30 ∧ halfwidth_spec (57/10) = 36 ∧
    gauss_dn (57/10) ≠ halfwidth_spec (57/10) := by
  refine ⟨?_, ?_, ?_⟩ <;> with_unfolding_all decide

/-- Sum of a kernel after unit-sum normalization. -/
theorem sum_normalizeQ (l : List ℚ) (h : l.sum ≠ 0) : (normalizeQ l).sum = 1 := by
  unfold normalizeQ
  have : (fun x => x / l.sum) = fun x => x * (l.sum)⁻¹ := funext fun x => div_eq_mul_inv x _
  rw [this]
  have hm := List.sum_map_mul_right l (fun x => x) (l.sum)⁻¹
  simpa [mul_inv_cancel₀ h] using hm

/-- C5 (amended): for `alpha > 0` the smoothing kernel of
`_determine_derivatives` has half-width `max(trunc(alpha), 5) * 6` channels
(`np.fix`, i.e. truncation toward zero, which equals the floor for positive
`alpha`) and is normalized to unit sum before being finite-differenced into
the derivative kernels. -/
theorem smoothing_kernel_halfwidth_norm (O : Oracle) (alpha : ℚ) (halpha : 0 < alpha)
    (hexp : ∀ x, 0 < O.exp x) :
    gauss_dn alpha = 6 * max ⌊alpha⌋ 5 ∧
    (gaussA O alpha).sum = 1 ∧
    (gaussA O alpha).length = 2 * (gauss_dn alpha).toNat + 2 := by
  refine ⟨?_, ?_, ?_⟩
  · rw [gauss_dn, fixQ, if_pos halpha.le, mul_comm]
  · unfold gaussA
    apply sum_normalizeQ
    apply ne_of_gt
    apply List.sum_pos
    · intro x hx
      obtain ⟨k, _, rfl⟩ := List.mem_map.mp hx
      exact hexp _
    · apply List.ne_nil_of_length_pos
      unfold gaussRawA
      rw [List.length_map, List.length_range]
      omega
  · unfold gaussA normalizeQ gaussRawA
    rw [List.length_map, List.length_map, List.length_range]

/-- Witness for `smoothing_kernel_halfwidth_norm` at `alpha = 1` with the
everywhere-positive oracle `Opos`. -/
theorem smoothing_kernel_halfwidth_norm_witness :
    gauss_dn 1 = 6 * max ⌊(1:ℚ)⌋ 5 ∧
    (gaussA Opos 1).sum = 1 ∧
    (gaussA Opos 1).length = 2 * (gauss_dn 1).toNat + 2 :=
  smoothing_kernel_halfwidth_norm Opos 1 (by norm_num) (fun _ => one_pos)

/-- C3 (amended): whenever `SNR2_thresh <= 0` the second-derivative threshold
is `0` and the second-derivative mask holds exactly at the channels whose
smoothed second derivative is strictly negative — not at every channel — so
candidate selection is additionally constrained by that negativity. -/
theorem mask4_snr2_nonpos (O : Oracle) (u2 : List ℚ) (SNR2_thresh : ℚ)
    (h : SNR2_thresh ≤ 0) :
    thresh2_of O u2 SNR2_thresh = 0 ∧
    mask4_of u2 (thresh2_of O u2 SNR2_thresh) =
      (u2.drop 1).map (fun x => decide (x < 0)) := by
  have h2 : ¬ (0 < SNR2_thresh) := not_lt.mpr h
  constructor
  · simp [thresh2_of, h2]
  · simp [mask4_of, thresh2_of, h2]

/-- Witness for `mask4_snr2_nonpos` at a concrete two-channel second
derivative. -/
theorem mask4_snr2_nonpos_witness :
    thresh2_of Opos [1, -1] 0 = 0 ∧
    mask4_of [1, -1] (thresh2_of Opos [1, -1] 0) =
      ([(1:ℚ), -1].drop 1).map (fun x => decide (x < 0)) :=
  mask4_snr2_nonpos Opos [1, -1] 0 le_rfl

/-- C3 (counterexample): with `SNR2_thresh = 0`, on the constant spectrum of
value `-1` over 4 channels (`dv = 1`, `alpha = 1`) the second-derivative mask
computed by `initialGuess` is false at channel 0 — the mask is not always
true when the threshold is zero. -/
theorem mask4_false_on_constant_spectrum :
    thresh2_of Otest u2ex 0 = 0 ∧
    (mask4_of u2ex (thresh2_of Otest u2ex 0)).getD 0 true = false := by
  constructor <;> with_unfolding_all decide

/-- C6 (counterexample): on a final guess list with two candidates of equal
amplitude `3` (widths `10, 20`, means `100, 200`), the code's
`np.argsort(amps)[::-1]` reordering emits the tied candidates in reversed
input order, while the spec's stable descending sort keeps them in input
order — the two orderings differ. -/
theorem AGD_sort_ties_reversed :
    AGD_sort_guesses [3, 3, 10, 20, 100, 200] = [3, 3, 20, 10, 200, 100] ∧
    AGD_sort_guesses_spec [3, 3, 10, 20, 100, 200] = [3, 3, 10, 20, 100, 200] ∧
    AGD_sort_guesses [3, 3, 10, 20, 100, 200] ≠
      AGD_sort_guesses_spec [3, 3, 10, 20, 100, 200] := by
  refine ⟨?_, ?_, ?_⟩ <;> with_unfolding_all decide

/-- C6 (amended): the final candidate sort applies one index permutation —
the reverse of an ascending stable argsort — to all three parameter
sub-vectors, so the set of (amplitude, width, mean) candidates is preserved
and the amplitudes come out in descending order; candidates of equal
amplitude appear in reverse of their input order (see
`AGD_sort_ties_reversed`), not in input order. -/
theorem AGD_sort_descending (params : List ℚ) (n : ℕ) (h : params.length = 3 * n) :
    ∃ w : List ℕ, w.Perm (List.range n) ∧
      AGD_sort_guesses params =
        permuteIdx w (params.take n) ++ permuteIdx w (sliceP params n (2 * n)) ++
          permuteIdx w (sliceP params (2 * n) (3 * n)) ∧
      List.Sorted (fun a b => b ≤ a) (permuteIdx w (params.take n)) := by
  have hlen : (params.take n).length = n := by
    rw [List.length_take, h]
    omega
  have hn : params.length / 3 = n := by
    rw [h]
    omega
  refine ⟨(argsort (params.take n)).reverse, ?_, ?_, ?_⟩
  · have hp : List.Perm (argsort (params.take n)) (List.range n) := by
      unfold argsort
      rw [hlen]
      exact List.perm_insertionSort _ _
    exact (List.reverse_perm _).trans hp
  · unfold AGD_sort_guesses
    rw [hn]
  · haveI ht : IsTotal ℕ (fun i j => (params.take n).getD i 0 ≤ (params.take n).getD j 0) :=
      ⟨fun a b => le_total _ _⟩
    haveI htr : IsTrans ℕ (fun i j => (params.take n).getD i 0 ≤ (params.take n).getD j 0) :=
      ⟨fun _ _ _ hab hbc => le_trans hab hbc⟩
    have hs := List.sorted_insertionSort
      (fun i j => (params.take n).getD i 0 ≤ (params.take n).getD j 0)
      (List.range (params.take n).length)
    unfold permuteIdx argsort
    rw [List.map_reverse]
    exact List.pairwise_reverse.mpr (List.pairwise_map.mpr hs)

/-- Witness for `AGD_sort_descending` at a concrete six-entry parameter
vector. -/
theorem AGD_sort_descending_witness :
    ∃ w : List ℕ, w.Perm (List.range 2) ∧
      AGD_sort_guesses [2, 1, 10, 20, 100, 200] =
        permuteIdx w ([(2:ℚ), 1, 10, 20, 100, 200].take 2) ++
          permuteIdx w (sliceP [2, 1, 10, 20, 100, 200] 2 (2 * 2)) ++
          permuteIdx w (sliceP [2, 1, 10, 20, 100, 200] (2 * 2) (3 * 2)) ∧
      List.Sorted (fun a b => b ≤ a) (permuteIdx w ([(2:ℚ), 1, 10, 20, 100, 200].take 2)) :=
  AGD_sort_descending [2, 1, 10, 20, 100, 200] 2 (by decide)

/-- The aggregation loop succeeds iff every result's row can be collected, in
which case it folds the rows into the accumulator. -/
theorem batchGo_eq (rs : List (Option AGDResult)) : ∀ (i : ℕ) (acc : BatchOutput),
    batchGo i rs acc =
      match collectRows i rs with
      | some rows => Except.ok (rows.foldl pushRow acc)
      | none => Except.error PyErr.keyError := by
  induction rs with
  | nil => intro i acc; rfl
  | cons r rest ih =>
    intro i acc
    cases hp : processOne r with
    | ok row =>
      simp only [batchGo, collectRows, rowOfResult, hp]
      rw [ih]
      cases hc : collectRows (i + 1) rest <;> simp [hc]
    | error e =>
      cases e
      · simp only [batchGo, collectRows, rowOfResult, hp]
        rw [ih]
        cases hc : collectRows (i + 1) rest <;> simp [hc]
      · simp only [batchGo, collectRows, rowOfResult, hp]

/-- Folding rows into the output appends, key by key, one entry per row. -/
theorem foldl_pushRow_eq (rows : List Row) : ∀ acc : BatchOutput,
    rows.foldl pushRow acc =
      ⟨acc.index_fit ++ rows.map Row.index_fit,
       acc.amplitudes_fit ++ rows.map Row.amplitudes_fit,
       acc.fwhms_fit ++ rows.map Row.fwhms_fit,
       acc.means_fit ++ rows.map Row.means_fit,
       acc.N_components_initial ++ rows.map Row.N_components_initial,
       acc.amplitudes_initial ++ rows.map Row.amplitudes_initial,
       acc.fwhms_initial ++ rows.map Row.fwhms_initial,
       acc.means_initial ++ rows.map Row.means_initial,
       acc.amplitudes_fit_err ++ rows.map Row.amplitudes_fit_err,
       acc.fwhms_fit_err ++ rows.map Row.fwhms_fit_err,
       acc.means_fit_err ++ rows.map Row.means_fit_err,
       acc.best_fit_rchi2 ++ rows.map Row.best_fit_rchi2,
       acc.best_fit_aicc ++ rows.map Row.best_fit_aicc,
       acc.N_components ++ rows.map Row.N_components,
       acc.N_neg_res_peak ++ rows.map Row.N_neg_res_peak,
       acc.N_blended ++ rows.map Row.N_blended,
       acc.log_gplus ++ rows.map Row.log_gplus,
       acc.pvalue ++ rows.map Row.pvalue,
       acc.quality_control ++ rows.map Row.quality_control⟩ := by
  induction rows with
  | nil =>
    intro acc
    simp only [List.foldl_nil, List.map_nil, List.append_nil]
  | cons r t ih =>
    intro acc
    rw [List.foldl_cons, ih]
    simp [pushRow, List.append_assoc]

/-- Row collection yields one row per result. -/
theorem collectRows_length (rs : List (Option AGDResult)) : ∀ (i : ℕ) (rows : List Row),
    collectRows i rs = some rows → rows.length = rs.length := by
  induction rs with
  | nil =>
    intro i rows h
    simp only [collectRows] at h
    cases h
    rfl
  | cons r rest ih =>
    intro i rows h
    unfold collectRows at h
    cases hr : rowOfResult i r <;> rw [hr] at h
    · cases h
    · cases hc : collectRows (i + 1) rest <;> rw [hc] at h
      · cases h
      · cases h
        simp [ih _ _ hc]

/-- The row collected at position `j` is exactly the row of result `j`. -/
theorem collectRows_getD (rs : List (Option AGDResult)) :
    ∀ (i : ℕ) (rows : List Row) (j : ℕ),
    collectRows i rs = some rows → j < rs.length →
    rowOfResult (i + j) (rs.getD j none) = some (rows.getD j (failRow 0)) := by
  induction rs with
  | nil =>
    intro i rows j _ hj
    exact absurd hj (by simp)
  | cons r rest ih =>
    intro i rows j h hj
    unfold collectRows at h
    cases hr : rowOfResult i r <;> rw [hr] at h
    · cases h
    · cases hc : collectRows (i + 1) rest <;> rw [hc] at h
      · cases h
      · cases h
        cases j with
        | zero => simpa using hr
        | succ jn =>
          have := ih (i + 1) _ jn hc (by simpa using hj)
          rw [show i + (jn + 1) = (i + 1) + jn by omega]
          simpa using this

/-- Row collection succeeds on a benign result list. -/
theorem collectRows_total (rs : List (Option AGDResult)) :
    ∀ i : ℕ, (∀ r ∈ rs, benign r = true) → ∃ rows, collectRows i rs = some rows := by
  induction rs with
  | nil => exact fun i _ => ⟨[], rfl⟩
  | cons r rest ih =>
    intro i hb
    obtain ⟨rowsr, hc⟩ := ih (i + 1) (fun x hx => hb x (List.mem_cons_of_mem _ hx))
    have hr : ∃ row, rowOfResult i r = some row := by
      have hbr := hb r (List.mem_cons_self _ _)
      cases r with
      | none => exact ⟨failRow i, rfl⟩
      | some x =>
        have hbr2 : (processOne (some x)).toBool = true := hbr
        cases hp : processOne (some x) with
        | ok row =>
          refine ⟨row, ?_⟩
          unfold rowOfResult
          rw [hp]
        | error e =>
          rw [hp] at hbr2
          cases e <;> simp [Except.toBool] at hbr2
    obtain ⟨row, hrr⟩ := hr
    refine ⟨row :: rowsr, ?_⟩
    unfold collectRows
    rw [hrr, hc]
    rfl

/-- A dictionary-shaped worker result never raises the caught `TypeError`:
only subscripting `None` does. -/
theorem processOne_some_not_typeError (x : AGDResult) :
    processOne (some x) ≠ Except.error PyErr.typeError := by
  unfold processOne
  cases hbf : x.best_fit_parameters <;> cases hbe : x.best_fit_errors <;>
    by_cases h : 0 < x.N_components <;> simp [h, hbf, hbe]

/-- Reading row `j` back out of the folded output. -/
theorem rowAt_fold (rows : List Row) (j : ℕ) (hj : j < rows.length) :
    rowAt (rows.foldl pushRow emptyOutput) j = rows.getD j (failRow 0) := by
  rw [foldl_pushRow_eq]
  have hfield : ∀ {α : Type} (f : Row → α) (d : α),
      (rows.map f).getD j d = f (rows.getD j (failRow 0)) := by
    intro α f d
    rw [List.getD_eq_getElem _ _ (by simpa using hj), List.getElem_map,
      List.getD_eq_getElem _ _ hj]
  unfold rowAt
  simp only [emptyOutput, List.nil_append]
  simp only [hfield]

/-- C9: whenever the aggregation loop of `batch_decomposition` completes, the
output dictionary carries exactly the 19 fixed keys (the fields of
`BatchOutput`) and every key's list has one entry per worker result — both
the success path and the caught-failure path append exactly one entry per key
per spectrum. -/
theorem batch_output_aligned (results : List (Option AGDResult)) (out : BatchOutput)
    (hok : batch_decomposition results = Except.ok out) :
    out.index_fit.length = results.length ∧
    out.amplitudes_fit.length = results.length ∧
    out.fwhms_fit.length = results.length ∧
    out.means_fit.length = results.length ∧
    out.N_components_initial.length = results.length ∧
    out.amplitudes_initial.length = results.length ∧
    out.fwhms_initial.length = results.length ∧
    out.means_initial.length = results.length ∧
    out.amplitudes_fit_err.length = results.length ∧
    out.fwhms_fit_err.length = results.length ∧
    out.means_fit_err.length = results.length ∧
    out.best_fit_rchi2.length = results.length ∧
    out.best_fit_aicc.length = results.length ∧
    out.N_components.length = results.length ∧
    out.N_neg_res_peak.length = results.length ∧
    out.N_blended.length = results.length ∧
    out.log_gplus.length = results.length ∧
    out.pvalue.length = results.length ∧
    out.quality_control.length = results.length := by
  unfold batch_decomposition at hok
  rw [batchGo_eq] at hok
  cases hc : collectRows 0 results <;> rw [hc] at hok
  · cases hok
  · cases hok
    have hlen := collectRows_length results 0 _ hc
    rw [foldl_pushRow_eq]
    refine ⟨?_, ?_, ?_, ?_, ?_, ?_, ?_, ?_, ?_, ?_, ?_, ?_, ?_, ?_, ?_, ?_, ?_, ?_, ?_⟩ <;>
      simp [emptyOutput, hlen]

/-- Witness for `batch_output_aligned` on the one-element result list holding
a single `None`. -/
theorem batch_output_aligned_witness :
    outN.index_fit.length = [(none : Option AGDResult)].length ∧
    outN.amplitudes_fit.length = [(none : Option AGDResult)].length ∧
    outN.fwhms_fit.length = [(none : Option AGDResult)].length ∧
    outN.means_fit.length = [(none : Option AGDResult)].length ∧
    outN.N_components_initial.length = [(none : Option AGDResult)].length ∧
    outN.amplitudes_initial.length = [(none : Option AGDResult)].length ∧
    outN.fwhms_initial.length = [(none : Option AGDResult)].length ∧
    outN.means_initial.length = [(none : Option AGDResult)].length ∧
    outN.amplitudes_fit_err.length = [(none : Option AGDResult)].length ∧
    outN.fwhms_fit_err.length = [(none : Option AGDResult)].length ∧
    outN.means_fit_err.length = [(none : Option AGDResult)].length ∧
    outN.best_fit_rchi2.length = [(none : Option AGDResult)].length ∧
    outN.best_fit_aicc.length = [(none : Option AGDResult)].length ∧
    outN.N_components.length = [(none : Option AGDResult)].length ∧
    outN.N_neg_res_peak.length = [(none : Option AGDResult)].length ∧
    outN.N_blended.length = [(none : Option AGDResult)].length ∧
    outN.log_gplus.length = [(none : Option AGDResult)].length ∧
    outN.pvalue.length = [(none : Option AGDResult)].length ∧
    outN.quality_control.length = [(none : Option AGDResult)].length :=
  batch_output_aligned [none] outN rfl

/-- C1 (counterexample): on a batch whose single worker result is `None`, the
failure handler records the loop position `0` — not `None` — in `index_fit`:
`output_data['index_fit'][i] = i` overwrites the appended `None`, so the
claim that every output field (including `index_fit`) holds `None` is false
on the code. -/
theorem batch_failure_index_fit_is_position :
    batch_decomposition [none] = Except.ok outN ∧
    outN.index_fit = [some (0 : ℤ)] ∧
    outN.index_fit ≠ [(none : Option ℤ)] := by
  refine ⟨rfl, rfl, by decide⟩

/-- C1 (amended): when worker result `i` is `None` (the structural-failure
path) in a benign batch, `batch_decomposition` returns without raising; row
`i` of the output holds `None` in all 18 data fields while `index_fit` holds
the loop position `i` (that is, row `i` equals `failRow i`); and every other
spectrum's row is exactly what processing its own result alone yields. -/
theorem batch_failure_isolated (results : List (Option AGDResult)) (i : ℕ)
    (hb : ∀ r ∈ results, benign r = true)
    (hi : i < results.length)
    (hfail : results.getD i none = none) :
    ∃ out, batch_decomposition results = Except.ok out ∧
      rowAt out i = failRow i ∧
      (∀ j, j < results.length → ∀ x, results.getD j none = some x →
        Except.ok (rowAt out j) = processOne (some x)) := by
  obtain ⟨rows, hc⟩ := collectRows_total results 0 hb
  have hlen := collectRows_length results 0 rows hc
  refine ⟨rows.foldl pushRow emptyOutput, ?_, ?_, ?_⟩
  · unfold batch_decomposition
    rw [batchGo_eq, hc]
  · have hg := collectRows_getD results 0 rows i hc hi
    rw [hfail] at hg
    have hg2 : some (failRow (0 + i)) = some (rows.getD i (failRow 0)) := hg
    rw [rowAt_fold rows i (by rw [hlen]; exact hi), ← Option.some.inj hg2]
    simp
  · intro j hj x hx
    have hg := collectRows_getD results 0 rows j hc hj
    rw [hx] at hg
    rw [rowAt_fold rows j (by rw [hlen]; exact hj)]
    unfold rowOfResult at hg
    cases hp : processOne (some x) with
    | ok row =>
      rw [hp] at hg
      simp only [Option.some.injEq] at hg
      rw [hg]
    | error e =>
      cases e
      · exact absurd hp (processOne_some_not_typeError x)
      · rw [hp] at hg
        cases hg

/-- Witness for `batch_failure_isolated` on a two-spectrum batch whose second
worker result is `None`. -/
theorem batch_failure_isolated_witness :
    ∃ out, batch_decomposition [some r0ex, none] = Except.ok out ∧
      rowAt out 1 = failRow 1 ∧
      (∀ j, j < ([some r0ex, none] : List (Option AGDResult)).length → ∀ x,
        ([some r0ex, none] : List (Option AGDResult)).getD j none = some x →
        Except.ok (rowAt out j) = processOne (some x)) :=
  batch_failure_isolated [some r0ex, none] 1 (by with_unfolding_all decide)
    (by decide) (by with_unfolding_all decide)

end GaussPyPlus
